import Mathlib

/-!
Verification of the deep-research plugin's core pipeline
(`packages/deep-research/src`): URL normalization and deduplication
(`utils/dedup.ts`), merging and ranking, the parallel execution engine
(`utils/parallel.ts`), the output formatters (`utils/formatters.ts`) and
the mass-summary synthesis fallback (`tools/mass-summary.ts`).

Strings are modelled as `List Char`; JavaScript's `undefined` for optional
fields is `Option`; a settled promise is a value of an explicit outcome
type.  All definitions are executable.
-/

namespace DeepResearch

/-! ### ASCII lowercasing (JS `String.prototype.toLowerCase`, ASCII part) -/

/-- Uppercase/lowercase ASCII letter pairs: the character translation done by
`toLowerCase` on the character sets that appear in URL keys. -/
def lowerPairs : List (Char × Char) :=
  [( 'A', 'a'), ( 'B', 'b'), ( 'C', 'c'), ( 'D', 'd'), ( 'E', 'e'), ( 'F', 'f'),
   ( 'G', 'g'), ( 'H', 'h'), ( 'I', 'i'), ( 'J', 'j'), ( 'K', 'k'), ( 'L', 'l'),
   ( 'M', 'm'), ( 'N', 'n'), ( 'O', 'o'), ( 'P', 'p'), ( 'Q', 'q'), ( 'R', 'r'),
   ( 'S', 's'), ( 'T', 't'), ( 'U', 'u'), ( 'V', 'v'), ( 'W', 'w'), ( 'X', 'x'),
   ( 'Y', 'y'), ( 'Z', 'z')]

/-- Lowercase one character (ASCII). -/
def lowerChar (c : Char) : Char :=
  match lowerPairs.find? (fun p => p.1 == c) with
  | some p => p.2
  | none => c

/-- Lowercase a string, as JS `toLowerCase` does on ASCII data. -/
def toLowerStr (s : List Char) : List Char := s.map lowerChar

/-- Characters accepted in a URL scheme after the first letter. -/
def isSchemeChar (c : Char) : Bool :=
  c.isAlpha || c.isDigit || c == '+' || c == '-' || c == '.'

/-- A valid scheme string: nonempty, alphabetic first character, scheme
characters afterwards. -/
def isSchemeString (s : List Char) : Bool :=
  match s with
  | [] => false
  | c :: cs => c.isAlpha && cs.all isSchemeChar

/-- The WHATWG forbidden host code points: a host containing one of these
makes `new URL` throw. -/
def hostExcluded (c : Char) : Bool :=
  c == '\x00' || c == '\t' || c == '\n' || c == '\r' || c == ' ' ||
    c == '#' || c == '/' || c == ':' || c == '<' || c == '>' ||
    c == '?' || c == '@' || c == '[' || c == '\\' || c == ']' ||
    c == '^' || c == '|'

/-- Characters the model accepts in a special-scheme (domain) host: not a
forbidden host code point, not `%`, not a C0 control or delete (the
WHATWG forbidden domain code points).  IDNA/punycode and percent-decoding
are not modelled. -/
def goodDomainChar (c : Char) : Bool :=
  !(hostExcluded c) && !(c == '%') && !(decide (c.toNat < 32))
    && !(c.toNat == 127)

/-- Slash characters the special-scheme parser skips after `scheme:`. -/
def isSlashy (c : Char) : Bool := c == '/' || c == '\\'

/-- Continue scanning a special-scheme authority: `\\` terminates it like
`/`, as do `?` and `#`. -/
def authContS (c : Char) : Bool :=
  !(c == '/' || c == '\\' || c == '?' || c == '#')

/-- Continue scanning a non-special authority: stop at `/`, `?` or `#`. -/
def authCont (c : Char) : Bool := !(c == '/' || c == '?' || c == '#')

/-- Continue scanning the path component: stop at `?` or `#`. -/
def pathCont (c : Char) : Bool := !(c == '?' || c == '#')

/-- In special-scheme paths a backslash is normalized to a slash. -/
def slashify (c : Char) : Char := if c = '\\' then '/' else c

/-- Strip every trailing `/` from a string: `path.replace(/\/+$/, "")`. -/
def stripTrailingSlashes : List Char → List Char
  | [] => []
  | c :: t =>
    match stripTrailingSlashes t with
    | [] => if c = '/' then [] else [c]
    | r => c :: r

/-- Strip a literal prefix if present, else return the string unchanged;
this is `replace(/^lit/, "")` for a literal pattern. -/
def stripPre (lit s : List Char) : List Char :=
  if lit.isPrefixOf s then s.drop lit.length else s

/-- The literal `www.` stripped from hostnames. -/
def wwwDot : List Char := [ 'w', 'w', 'w', '.']

/-- The literal `http://`. -/
def httpSlashes : List Char := [ 'h', 't', 't', 'p', ':', '/', '/']

/-- The literal `https://`. -/
def httpsSlashes : List Char := [ 'h', 't', 't', 'p', 's', ':', '/', '/']

/-- Strip a leading `http://` or `https://`: `replace(/^https?:\/\//, "")`
applied to an already lowercased string. -/
def stripHttp (s : List Char) : List Char :=
  if httpsSlashes.isPrefixOf s then s.drop 8
  else if httpSlashes.isPrefixOf s then s.drop 7
  else s

/-- The hostname, pathname and path kind of a parsed URL; the components
`normalizeUrl` reads.  `opaque` records whether the URL has an opaque
path (the WHATWG notion: a non-special scheme not followed by a slash,
as in `mailto:x` or `a:b:c`). -/
structure UrlParts where
  hostname : List Char
  pathname : List Char
  opq : Bool
deriving DecidableEq, Repr

/-- Split `scheme:rest` at the first colon, requiring a well-formed scheme
before it; `none` models `new URL` throwing for a schemeless string. -/
def splitScheme (s : List Char) : Option (List Char × List Char) :=
  match s.dropWhile (fun c => !(c == ':')) with
  | ':' :: rest =>
    if isSchemeString (s.takeWhile (fun c => !(c == ':'))) then
      some (s.takeWhile (fun c => !(c == ':')), rest)
    else none
  | _ => none

/-- The authority section after any userinfo: the part after the last `@`. -/
def afterLastAt (auth : List Char) : List Char :=
  (auth.reverse.takeWhile (fun c => !(c == '@'))).reverse

/-- Digit values up to radix 16, upper and lower case. -/
def hexPairs : List (Char × Nat) :=
  [( '0', 0), ( '1', 1), ( '2', 2), ( '3', 3), ( '4', 4), ( '5', 5),
   ( '6', 6), ( '7', 7), ( '8', 8), ( '9', 9),
   ( 'a', 10), ( 'b', 11), ( 'c', 12), ( 'd', 13), ( 'e', 14), ( 'f', 15),
   ( 'A', 10), ( 'B', 11), ( 'C', 12), ( 'D', 13), ( 'E', 14), ( 'F', 15)]

/-- The value of one digit in the given radix, if valid. -/
def digitVal? (radix : Nat) (c : Char) : Option Nat :=
  match hexPairs.find? (fun p => p.1 == c) with
  | some p => if p.2 < radix then some p.2 else none
  | none => none

/-- The value of a digit string in the given radix; the empty string is 0
(the WHATWG number parser after stripping a `0x`/`0` prefix). -/
def numInRadix (radix : Nat) : List Char → Option Nat
  | [] => some 0
  | c :: t =>
    match digitVal? radix c, numInRadix radix t with
    | some d, some v => some (d * radix ^ t.length + v)
    | _, _ => none

/-- The WHATWG IPv4 number parser: decimal, `0x` hex, or leading-zero
octal; fails on the empty string and on an invalid digit. -/
def ipv4Num (s : List Char) : Option Nat :=
  match s with
  | [] => none
  | _ =>
    if [ '0', 'x'].isPrefixOf s || [ '0', 'X'].isPrefixOf s then
      numInRadix 16 (s.drop 2)
    else if decide (2 ≤ s.length) && (s.head? == some '0') then
      numInRadix 8 (s.drop 1)
    else numInRadix 10 s

/-- The dot-separated labels of a host, one trailing empty label dropped
(`1.2.3.4.` parses like `1.2.3.4`). -/
def hostLabels (h : List Char) : List (List Char) :=
  let parts := h.splitOn '.'
  if decide (1 < parts.length) && (parts.getLast? == some ([] : List Char)) then
    parts.dropLast
  else parts

/-- WHATWG `ends in a number`: the final label is all digits or parses as
an IPv4 number (so `0x7f` counts); such a host must be a valid IPv4
address. -/
def endsInNumber (h : List Char) : Bool :=
  match (hostLabels h).getLast? with
  | none => false
  | some lst => !lst.isEmpty && (lst.all Char.isDigit || (ipv4Num lst).isSome)

/-- The WHATWG IPv4 parser: at most four labels, each a valid number, the
last below `256^(5-n)`, the others below 256; yields the 32-bit value. -/
def ipv4Parse (h : List Char) : Option Nat :=
  let parts := hostLabels h
  if parts.isEmpty || decide (4 < parts.length) then none
  else
    match parts.mapM ipv4Num with
    | none => none
    | some nums =>
      match nums.getLast? with
      | none => none
      | some lst =>
        if nums.dropLast.all (fun v => decide (v < 256))
            && decide (lst < 256 ^ (5 - nums.length)) then
          some ((nums.dropLast.foldl (fun acc v => acc * 256 + v) 0)
            * 256 ^ (5 - nums.length) + lst)
        else none

/-- One decimal digit. -/
def digit (n : Nat) : Char :=
  if n = 0 then '0' else if n = 1 then '1' else if n = 2 then '2'
  else if n = 3 then '3' else if n = 4 then '4' else if n = 5 then '5'
  else if n = 6 then '6' else if n = 7 then '7' else if n = 8 then '8'
  else '9'

/-- The decimal digits of one IPv4 octet (a value below 256). -/
def octetChars (n : Nat) : List Char :=
  if n < 10 then [digit n]
  else if n < 100 then [digit (n / 10), digit (n % 10)]
  else [digit (n / 100), digit (n / 10 % 10), digit (n % 10)]

/-- Serialization of an IPv4 address: the canonical dotted decimal quad. -/
def ipv4Serialize (v : Nat) : List Char :=
  octetChars (v / 16777216 % 256)
    ++ '.' :: (octetChars (v / 65536 % 256)
      ++ '.' :: (octetChars (v / 256 % 256)
        ++ '.' :: octetChars (v % 256)))

/-- The WHATWG domain/IPv4 host parser for special schemes: validate the
character set, lowercase, and require a host whose final label is numeric
to be a valid IPv4 address, serialized canonically. -/
def parseSpecialDomain (host : List Char) : Option (List Char) :=
  if !(host.all goodDomainChar) then none
  else if endsInNumber (toLowerStr host) then
    (ipv4Parse (toLowerStr host)).map ipv4Serialize
  else some (toLowerStr host)

/-- A port is valid when empty or all decimal digits of value at most
65535; anything else makes `new URL` throw. -/
def portOk (p : List Char) : Bool :=
  match numInRadix 10 p with
  | some v => decide (v ≤ 65535)
  | none => false

/-- Parse an authority section: split the userinfo off, validate the port
after the first host colon, and validate the host — as a domain/IPv4 for
special schemes (`allowEmptyHost` only for `file:`), as an opaque host
(possibly empty) for non-special schemes. -/
def parseAuthority (special allowEmptyHost : Bool) (auth : List Char) :
    Option (List Char) :=
  if !(portOk (((afterLastAt auth).dropWhile (fun c => !(c == ':'))).drop 1)) then
    none
  else if ((afterLastAt auth).takeWhile (fun c => !(c == ':'))).isEmpty then
    if allowEmptyHost || !special then some [] else none
  else if special then
    parseSpecialDomain ((afterLastAt auth).takeWhile (fun c => !(c == ':')))
  else if ((afterLastAt auth).takeWhile (fun c => !(c == ':'))).all
      (fun c => !(hostExcluded c)) then
    some ((afterLastAt auth).takeWhile (fun c => !(c == ':')))
  else none

/-- The schemes with special authority treatment. -/
def specialSchemes : List (List Char) :=
  [("http").toList, ("https").toList, ("ws").toList, ("wss").toList,
    ("ftp").toList, ("file").toList]

/-- Scheme comparison is case-insensitive. -/
def isSpecial (scheme : List Char) : Bool :=
  specialSchemes.contains (toLowerStr scheme)

/-- The path of a special-scheme URL whose authority opens `r`: the part
after the authority up to `?`/`#`, backslashes folded to slashes,
defaulting to `/`. -/
def specialPath (r : List Char) : List Char :=
  if (((r.dropWhile authContS).takeWhile pathCont).map slashify).isEmpty then
    [ '/']
  else ((r.dropWhile authContS).takeWhile pathCont).map slashify

/-- Special-scheme parsing after `scheme:` (`file:` aside): skip every
slash and backslash, read the authority up to `/`, `\`, `?` or `#`, then
the path. -/
def jsURLSpecial (rest : List Char) : Option UrlParts :=
  match parseAuthority true false ((rest.dropWhile isSlashy).takeWhile authContS) with
  | none => none
  | some host => some ⟨host, specialPath (rest.dropWhile isSlashy), false⟩

def startsWithSlashySlashy (rest : List Char) : Bool :=
  match rest with
  | c1 :: c2 :: _ => isSlashy c1 && isSlashy c2
  | _ => false

def dropOneSlashy (rest : List Char) : List Char :=
  if rest.head?.any isSlashy then rest.tail else rest

/-- `file:` URLs, per the WHATWG file states: exactly two slashes (or
backslashes) introduce a possibly-empty host read up to the next `/`,
`\`, `?` or `#`; otherwise the host is empty and the rest — minus at most
one leading slash — becomes a rooted path.  Windows drive-letter quirks
are not modelled. -/
def jsURLFile (rest : List Char) : Option UrlParts :=
  if startsWithSlashySlashy rest then
    match parseAuthority true true ((rest.drop 2).takeWhile authContS) with
    | none => none
    | some host => some ⟨host, specialPath (rest.drop 2), false⟩
  else
    some ⟨[], '/' :: ((dropOneSlashy rest).takeWhile pathCont).map slashify, false⟩

/-- The parts of a non-special URL without `//` after the scheme: empty
host, the rest up to `?`/`#` as the path, opaque unless rooted by `/`. -/
def noAuthParts (rest : List Char) : UrlParts :=
  ⟨[], rest.takeWhile pathCont, decide (rest.head? ≠ some '/')⟩

def startsWithSlashSlash (rest : List Char) : Bool :=
  match rest with
  | c1 :: c2 :: _ => c1 == '/' && c2 == '/'
  | _ => false

/-- Non-special parsing after `scheme:`: `//` introduces an authority
with an opaque (possibly empty) host; otherwise the rest is a rooted or
opaque path. -/
def jsURLNonSpecial (rest : List Char) : Option UrlParts :=
  if startsWithSlashSlash rest then
    match parseAuthority false false ((rest.drop 2).takeWhile authCont) with
    | none => none
    | some host =>
      some ⟨host, ((rest.drop 2).dropWhile authCont).takeWhile pathCont, false⟩
  else some (noAuthParts rest)

/-- Model of `new URL(s)` restricted to the components `normalizeUrl`
reads.  Modelled: scheme validation, the special-scheme slash skipping,
userinfo/host/port splitting with digit-and-range port validation, the
forbidden-host-code-point check, the `ends in a number` IPv4 requirement
with canonical dotted-quad serialization, hostname lowercasing for
special schemes, empty-host rules (`file:` aside, a special scheme needs
a host), opaque hosts for non-special schemes, rooted and opaque paths,
path backslash folding and the `/` path default, and the cutting of query
and fragment.  Not modelled: percent-encoding and -decoding, IDNA for
non-ASCII hosts, dot-segment path normalization, and the pre-parse
stripping of tabs, newlines and surrounding control characters, and
IPv6 literal hosts (the brackets are treated as forbidden, so the model
rejects them). -/
def jsURL (s : List Char) : Option UrlParts :=
  match splitScheme s with
  | none => none
  | some (scheme, rest) =>
    if toLowerStr scheme == ("file").toList then jsURLFile rest
    else if isSpecial scheme then jsURLSpecial rest
    else jsURLNonSpecial rest

/-- `normalizeUrl` from `dedup.ts`: on a parsed URL, lowercase
`hostname` minus a leading `www.` plus `pathname` minus trailing slashes;
on parse failure, the best-effort string transform of the `catch` branch. -/
def normalizeUrl (url : List Char) : List Char :=
  match jsURL url with
  | some u =>
    toLowerStr (stripPre wwwDot u.hostname ++ stripTrailingSlashes u.pathname)
  | none =>
    stripTrailingSlashes (stripPre wwwDot (stripHttp (toLowerStr url)))

/-! ### Structure of parsed URLs and their keys -/

/-- The provider tag of a result. -/
inductive Source
  | exa
  | firecrawl
  | perplexity
deriving DecidableEq, Repr

/-- A provider-native search result (pre-merge). -/
structure SearchResult where
  url : List Char
  title : List Char
  snippet : List Char
  content : Option (List Char)
  publishedDate : Option (List Char)
  source : Source
  score : Option Int
deriving DecidableEq, Repr

/-- A merged, cross-source-annotated result. -/
structure MergedResult where
  url : List Char
  normalizedUrl : List Char
  title : List Char
  snippet : List Char
  content : Option (List Char)
  publishedDate : Option (List Char)
  sources : List Source
  relevanceScore : Int
deriving DecidableEq, Repr

/-- JS truthiness of an optional string: defined and nonempty. -/
def truthyStr : Option (List Char) → Bool
  | none => false
  | some s => !s.isEmpty

/-- Length of an optional string (only compared under truthiness). -/
def optLen : Option (List Char) → Nat
  | none => 0
  | some s => s.length

/-- The in-place update of an existing map entry in `mergeResults`:
append an unseen source (incrementing the score by one), prefer longer
content and snippet, fill a missing publishedDate. -/
def updateExisting (e : MergedResult) (r : SearchResult) : MergedResult :=
  let e1 := if r.source ∈ e.sources then e
    else { e with sources := e.sources ++ [r.source],
                  relevanceScore := e.relevanceScore + 1 }
  let e2 := if truthyStr r.content
      && (!truthyStr e1.content || decide (optLen r.content > optLen e1.content))
    then { e1 with content := r.content } else e1
  let e3 := if !r.snippet.isEmpty && decide (r.snippet.length > e2.snippet.length)
    then { e2 with snippet := r.snippet } else e2
  if !truthyStr e3.publishedDate && truthyStr r.publishedDate
    then { e3 with publishedDate := r.publishedDate } else e3

/-- The fresh map entry created for an unseen key in `mergeResults`. -/
def newMerged (key : List Char) (r : SearchResult) : MergedResult :=
  { url := r.url
    normalizedUrl := key
    title := if r.title.isEmpty then r.url else r.title
    snippet := r.snippet
    content := r.content
    publishedDate := r.publishedDate
    sources := [r.source]
    relevanceScore := 1 + r.score.getD 0 }

/-- One step of the `mergeResults` fold over the insertion-ordered map,
modelled as a list of entries with distinct `normalizedUrl` keys. -/
def insertResult (acc : List MergedResult) (r : SearchResult) : List MergedResult :=
  let key := normalizeUrl r.url
  if acc.any (fun m => m.normalizedUrl == key) then
    acc.map (fun m => if m.normalizedUrl == key then updateExisting m r else m)
  else acc ++ [newMerged key r]

/-- `mergeResults` from `dedup.ts`: fold the input once, deduplicating by
normalized URL; output in first-seen key order (JS `Map` insertion
order). -/
def mergeResults (results : List SearchResult) : List MergedResult :=
  results.foldl insertResult []

theorem updateExisting_fields (e : MergedResult) (r : SearchResult) :
    (updateExisting e r).url = e.url ∧
      (updateExisting e r).normalizedUrl = e.normalizedUrl := by
  unfold updateExisting
  dsimp only
  constructor <;> (repeat' split) <;> simp

theorem updateExisting_sources_mem {e : MergedResult} {r : SearchResult}
    (hm : r.source ∈ e.sources) :
    (updateExisting e r).sources = e.sources ∧
      (updateExisting e r).relevanceScore = e.relevanceScore := by
  unfold updateExisting
  dsimp only
  rw [if_pos hm]
  constructor <;> (repeat' split) <;> simp

theorem updateExisting_sources_not_mem {e : MergedResult} {r : SearchResult}
    (hm : r.source ∉ e.sources) :
    (updateExisting e r).sources = e.sources ++ [r.source] ∧
      (updateExisting e r).relevanceScore = e.relevanceScore + 1 := by
  unfold updateExisting
  dsimp only
  rw [if_neg hm]
  constructor <;> (repeat' split) <;> simp

theorem updateExisting_nodup {e : MergedResult} {r : SearchResult}
    (h : e.sources.Nodup) : (updateExisting e r).sources.Nodup := by
  by_cases hm : r.source ∈ e.sources
  · rw [(updateExisting_sources_mem hm).1]
    exact h
  · rw [(updateExisting_sources_not_mem hm).1]
    refine List.nodup_append.2 ⟨h, List.nodup_singleton _, ?_⟩
    intro x hx hx'
    simp at hx'
    subst hx'
    exact hm hx

theorem insertResult_inv {acc : List MergedResult} {r : SearchResult}
    (h : ∀ m ∈ acc, m.sources.Nodup ∧ m.normalizedUrl = normalizeUrl m.url) :
    ∀ m ∈ insertResult acc r,
      m.sources.Nodup ∧ m.normalizedUrl = normalizeUrl m.url := by
  intro m hm
  unfold insertResult at hm
  dsimp only at hm
  by_cases hany : acc.any (fun m => m.normalizedUrl == normalizeUrl r.url)
  · rw [if_pos hany] at hm
    obtain ⟨m0, hm0, hmeq⟩ := List.mem_map.1 hm
    by_cases hk : m0.normalizedUrl == normalizeUrl r.url
    · rw [if_pos hk] at hmeq
      subst hmeq
      obtain ⟨h1, h2⟩ := h m0 hm0
      refine ⟨updateExisting_nodup h1, ?_⟩
      rw [(updateExisting_fields m0 r).1, (updateExisting_fields m0 r).2]
      exact h2
    · rw [if_neg hk] at hmeq
      subst hmeq
      exact h m0 hm0
  · rw [if_neg hany] at hm
    rcases List.mem_append.1 hm with hold | hnew
    · exact h m hold
    · have : m = newMerged (normalizeUrl r.url) r := by simpa using hnew
      subst this
      exact ⟨List.nodup_singleton _, rfl⟩

/-- The spec example: `https://a.com/x` seen by provider A (exa). -/
def demoA : SearchResult :=
  { url := ("https://a.com/x").toList
    title := ("x").toList
    snippet := []
    content := none
    publishedDate := none
    source := Source.exa
    score := none }

/-- The spec example: `http://www.a.com/x/` seen by provider B (firecrawl). -/
def demoB : SearchResult :=
  { url := ("http://www.a.com/x/").toList
    title := []
    snippet := []
    content := none
    publishedDate := none
    source := Source.firecrawl
    score := none }

/-- The single merged record the spec example must produce. -/
def demoMerged : MergedResult :=
  { url := ("https://a.com/x").toList
    normalizedUrl := ("a.com/x").toList
    title := ("x").toList
    snippet := []
    content := none
    publishedDate := none
    sources := [Source.exa, Source.firecrawl]
    relevanceScore := 2 }

/-- C2: merging the two-element spec example yields exactly one record with
both sources in first-seen order and relevance score 2; and in general an
incoming item for an existing key appends its source only when unseen,
incrementing the score by exactly one, while a repeat observation by an
already-present source changes neither sources nor score. -/
theorem mergeResults_accumulates :
    mergeResults [demoA, demoB] = [demoMerged] ∧
      (∀ (e : MergedResult) (r : SearchResult),
        (r.source ∈ e.sources →
          (updateExisting e r).sources = e.sources ∧
            (updateExisting e r).relevanceScore = e.relevanceScore) ∧
        (r.source ∉ e.sources →
          (updateExisting e r).sources = e.sources ++ [r.source] ∧
            (updateExisting e r).relevanceScore = e.relevanceScore + 1)) := by
  refine ⟨by decide, ?_⟩
  intro e r
  exact ⟨fun hm => updateExisting_sources_mem hm,
    fun hm => updateExisting_sources_not_mem hm⟩

/-- Witness for `mergeResults_accumulates`: a repeat observation by an
already-present source leaves the merged record's sources and score
unchanged. -/
theorem mergeResults_accumulates_witness :
    (updateExisting demoMerged demoB).sources = demoMerged.sources ∧
      (updateExisting demoMerged demoB).relevanceScore = demoMerged.relevanceScore :=
  (mergeResults_accumulates.2 demoMerged demoB).1 (by decide)

/-- C6: every record `mergeResults` outputs satisfies the data-model
invariant: no duplicate source tags, and `normalizedUrl` is exactly
`normalizeUrl` of its `url`. -/
theorem mergeResults_invariants (results : List SearchResult) :
    ∀ m ∈ mergeResults results,
      m.sources.Nodup ∧ m.normalizedUrl = normalizeUrl m.url := by
  suffices hgen : ∀ (rs : List SearchResult) (acc : List MergedResult),
      (∀ m ∈ acc, m.sources.Nodup ∧ m.normalizedUrl = normalizeUrl m.url) →
      ∀ m ∈ rs.foldl insertResult acc,
        m.sources.Nodup ∧ m.normalizedUrl = normalizeUrl m.url by
    exact hgen results [] (by intro m hm; simp at hm)
  intro rs
  induction rs with
  | nil => intro acc hacc m hm; exact hacc m hm
  | cons r rest ih =>
    intro acc hacc m hm
    exact ih (insertResult acc r) (insertResult_inv hacc) m hm

/-- Witness for `mergeResults_invariants` on the merged spec example. -/
theorem mergeResults_invariants_witness :
    demoMerged.sources.Nodup ∧ demoMerged.normalizedUrl = normalizeUrl demoMerged.url :=
  mergeResults_invariants [demoA, demoB] demoMerged (by decide)

/-! ### `rankByRelevance` (dedup.ts): stable sort by the comparator
`(a, b) => b.sources.length - a.sources.length` with tiebreak
`b.relevanceScore - a.relevanceScore`. -/

/-- `rankLE a b` holds when the comparator does not require `b` before
`a`: `a` may come first.  JS `Array.prototype.sort` is stable (ES2019),
so the sort is modelled as insertion sort under this order. -/
def rankLE (a b : MergedResult) : Prop :=
  b.sources.length < a.sources.length ∨
    (a.sources.length = b.sources.length ∧ b.relevanceScore ≤ a.relevanceScore)

instance : DecidableRel rankLE := fun a b => by
  unfold rankLE
  exact inferInstance

instance : IsTotal MergedResult rankLE := ⟨by
  intro a b
  unfold rankLE
  omega⟩

instance : IsTrans MergedResult rankLE := ⟨by
  intro a b c h1 h2
  unfold rankLE at h1 h2 ⊢
  omega⟩

/-- `rankByRelevance` from `dedup.ts`. -/
def rankByRelevance (results : List MergedResult) : List MergedResult :=
  List.insertionSort rankLE results

theorem filter_orderedInsert {q : MergedResult → Bool} {a : MergedResult}
    (hq : ∀ x, q x = true → q a = true → rankLE a x) :
    ∀ l : List MergedResult,
      (List.orderedInsert rankLE a l).filter q
        = if q a then a :: l.filter q else l.filter q := by
  intro l
  induction l with
  | nil =>
    simp only [List.orderedInsert_nil, List.filter]
    cases hqa : q a <;> simp [hqa]
  | cons b t ih =>
    by_cases hr : rankLE a b
    · rw [List.orderedInsert_of_le rankLE t hr]
      cases hqa : q a with
      | true => simp [List.filter_cons, hqa]
      | false => simp [List.filter_cons, hqa]
    · have hins : List.orderedInsert rankLE a (b :: t)
          = b :: List.orderedInsert rankLE a t := by
        simp [List.orderedInsert, hr]
      rw [hins]
      cases hqa : q a with
      | true =>
        have hqb : q b = false := by
          cases hqb : q b with
          | false => rfl
          | true => exact absurd (hq b hqb hqa) hr
        rw [List.filter_cons_of_neg (by simp [hqb]), ih,
          List.filter_cons_of_neg (by simp [hqb])]
        simp [hqa]
      | false =>
        cases hqb : q b with
        | true =>
          rw [List.filter_cons_of_pos (by simp [hqb]), ih,
            List.filter_cons_of_pos (by simp [hqb])]
          simp [hqa]
        | false =>
          rw [List.filter_cons_of_neg (by simp [hqb]), ih,
            List.filter_cons_of_neg (by simp [hqb])]
          simp [hqa]

theorem filter_insertionSort {q : MergedResult → Bool}
    (hq : ∀ x y, q x = true → q y = true → rankLE y x) :
    ∀ l : List MergedResult,
      (List.insertionSort rankLE l).filter q = l.filter q := by
  intro l
  induction l with
  | nil => rfl
  | cons b t ih =>
    have : List.insertionSort rankLE (b :: t)
        = List.orderedInsert rankLE b (List.insertionSort rankLE t) := rfl
    rw [this, filter_orderedInsert (fun x hx hb => hq x b hx hb)]
    cases hqb : q b with
    | true =>
      rw [ih, List.filter_cons_of_pos (by simp [hqb])]
      simp
    | false =>
      rw [ih, List.filter_cons_of_neg (by simp [hqb])]
      simp

/-- C3: `rankByRelevance` is a stable sort: the output is a permutation of
the input, pairwise ordered by source count descending then relevance
score descending (so an entry with strictly more sources always precedes
one with fewer), and entries with equal source count and equal score keep
their original relative order. -/
theorem rankByRelevance_stable_sort (l : List MergedResult) :
    (rankByRelevance l).Perm l ∧
      List.Pairwise rankLE (rankByRelevance l) ∧
      List.Pairwise (fun a b => b.sources.length ≤ a.sources.length)
        (rankByRelevance l) ∧
      (∀ (n : Nat) (sc : Int),
        (rankByRelevance l).filter
            (fun m => m.sources.length == n && m.relevanceScore == sc)
          = l.filter (fun m => m.sources.length == n && m.relevanceScore == sc)) := by
  have hsorted : List.Pairwise rankLE (rankByRelevance l) :=
    List.sorted_insertionSort rankLE l
  refine ⟨List.perm_insertionSort rankLE l, hsorted, ?_, ?_⟩
  · exact hsorted.imp (fun h => by unfold rankLE at h; omega)
  · intro n sc
    apply filter_insertionSort
    intro x y hx hy
    have hx' := Bool.and_eq_true_iff.1 hx
    have hy' := Bool.and_eq_true_iff.1 hy
    unfold rankLE
    right
    constructor
    · rw [Nat.beq_eq_true_eq] at *
      rw [hy'.1, hx'.1]
    · have h1 : x.relevanceScore = sc := by
        have := hx'.2
        simpa using this
      have h2 : y.relevanceScore = sc := by
        have := hy'.2
        simpa using this
      rw [h1, h2]

/-! ### `parallel.ts`: parallelServices and safeCall -/

/-- How a provider call settles: resolve, reject with a message, or hang
past its timeout. -/
inductive CallOutcome (α : Type) where
  | ok (v : α)
  | err (msg : List Char)
  | hang

/-- The message of the rejecting timer in `safeCall`. -/
def timeoutMsg (timeoutMs : Nat) : List Char :=
  ("Timeout after ").toList ++ (Nat.repr timeoutMs).toList ++ ("ms").toList

/-- `safeCall` from `parallel.ts`: race the call against a rejecting
timer; a hanging call becomes a timeout rejection. -/
def safeCall {α : Type} (fn : CallOutcome α) (timeoutMs : Nat) : Except (List Char) α :=
  match fn with
  | .ok v => .ok v
  | .err m => .error m
  | .hang => .error (timeoutMsg timeoutMs)

/-- The result record of `parallelServices`. -/
structure ParallelResults (E F P : Type) where
  exa : Option E
  firecrawl : Option F
  perplexity : Option P
  errors : List (List Char)

/-- The bracketed provider name prefixed to an exa error. -/
def exaTag : List Char := [ '[', 'E', 'x', 'a', ']', ' ']

/-- The bracketed provider name prefixed to a firecrawl error. -/
def firecrawlTag : List Char :=
  [ '[', 'F', 'i', 'r', 'e', 'c', 'r', 'a', 'w', 'l', ']', ' ']

/-- The bracketed provider name prefixed to a perplexity error. -/
def perplexityTag : List Char :=
  [ '[', 'P', 'e', 'r', 'p', 'l', 'e', 'x', 'i', 't', 'y', ']', ' ']

/-- The `.catch` attached to each branch: a settled branch yields its
value, a failed branch yields `null` plus one tagged error message. -/
def settle {α : Type} (r : Except (List Char) α) (tag : List Char) :
    Option α × List (List Char) :=
  match r with
  | .ok v => (some v, [])
  | .error m => (none, [tag ++ m])

/-- `parallelServices` from `parallel.ts`: all three calls run under their
timeouts (exa and firecrawl 120000 ms, perplexity 180000 ms); each failure
is converted locally to `null` plus a tagged error; the function itself
always returns a `ParallelResults`, never a rejection.  The JS error array
is filled in settlement order; the model fixes that order to
exa, firecrawl, perplexity. -/
def parallelServices {E F P : Type} (exaCall : CallOutcome E)
    (firecrawlCall : CallOutcome F) (perplexityCall : CallOutcome P) :
    ParallelResults E F P :=
  let e := settle (safeCall exaCall 120000) exaTag
  let f := settle (safeCall firecrawlCall 120000) firecrawlTag
  let p := settle (safeCall perplexityCall 180000) perplexityTag
  { exa := e.1, firecrawl := f.1, perplexity := p.1, errors := e.2 ++ f.2 ++ p.2 }

/-- The value a slot must hold: the call's result on resolve, else none. -/
def okVal {α : Type} : CallOutcome α → Option α
  | .ok v => some v
  | _ => none

/-- The tagged error a branch must contribute: none on resolve, the tagged
rejection message, or the tagged timeout message. -/
def failMsg {α : Type} (tag : List Char) (timeoutMs : Nat) :
    CallOutcome α → List (List Char)
  | .ok _ => []
  | .err m => [tag ++ m]
  | .hang => [tag ++ timeoutMsg timeoutMs]

theorem tag_pre_self (t m : List Char) : t.isPrefixOf (t ++ m) = true := by
  rw [List.isPrefixOf_iff_prefix]
  exact List.prefix_append t m

theorem exaTag_not_pre_fc (m : List Char) :
    exaTag.isPrefixOf (firecrawlTag ++ m) = false := rfl

theorem exaTag_not_pre_px (m : List Char) :
    exaTag.isPrefixOf (perplexityTag ++ m) = false := rfl

theorem fcTag_not_pre_exa (m : List Char) :
    firecrawlTag.isPrefixOf (exaTag ++ m) = false := rfl

theorem fcTag_not_pre_px (m : List Char) :
    firecrawlTag.isPrefixOf (perplexityTag ++ m) = false := rfl

theorem pxTag_not_pre_exa (m : List Char) :
    perplexityTag.isPrefixOf (exaTag ++ m) = false := rfl

theorem pxTag_not_pre_fc (m : List Char) :
    perplexityTag.isPrefixOf (firecrawlTag ++ m) = false := rfl

/-- C1: for every triple of call outcomes, `parallelServices` returns a
plain record (never a rejection): each successful call's value sits
unchanged in its slot, each failing or hanging call contributes `null`
and exactly one error bearing its provider's bracketed prefix, and the
error list is exactly the concatenation of the failed branches'
messages — for zero, one, two or three failures alike. -/
theorem parallelServices_graceful {E F P : Type} (a : CallOutcome E)
    (b : CallOutcome F) (c : CallOutcome P) :
    (parallelServices a b c).exa = okVal a ∧
      (parallelServices a b c).firecrawl = okVal b ∧
      (parallelServices a b c).perplexity = okVal c ∧
      (parallelServices a b c).errors
        = failMsg exaTag 120000 a ++ failMsg firecrawlTag 120000 b
          ++ failMsg perplexityTag 180000 c ∧
      (parallelServices a b c).errors.countP (fun s => exaTag.isPrefixOf s)
        = (if (okVal a).isSome then 0 else 1) ∧
      (parallelServices a b c).errors.countP (fun s => firecrawlTag.isPrefixOf s)
        = (if (okVal b).isSome then 0 else 1) ∧
      (parallelServices a b c).errors.countP (fun s => perplexityTag.isPrefixOf s)
        = (if (okVal c).isSome then 0 else 1) := by
  cases a <;> cases b <;> cases c <;>
    simp [parallelServices, settle, safeCall, okVal, failMsg, List.countP_cons,
      tag_pre_self,
      exaTag_not_pre_fc, exaTag_not_pre_px, fcTag_not_pre_exa,
      fcTag_not_pre_px, pxTag_not_pre_exa, pxTag_not_pre_fc]

/-! ### `parallel.ts`: batchProcess -/

/-- JS index clamping for `Array.prototype.slice`: negative indices count
from the end, everything is clamped into `[0, length]`. -/
def clampIdx (x : Int) (n : Nat) : Nat :=
  if x < 0 then ((n : Int) + x).toNat else min x.toNat n

/-- `Array.prototype.slice(s, e)`. -/
def jsSlice {α : Type} (l : List α) (s e : Int) : List α :=
  (l.take (clampIdx e l.length)).drop (clampIdx s l.length)

/-- The slot an item contributes to `results`: its value on success,
`null` on failure (the per-item `.catch`). -/
def okOf {ρ : Type} (r : Except (List Char) ρ) : Option ρ :=
  match r with
  | .ok v => some v
  | .error _ => none

/-- The error message pushed for a failed item at absolute index `i`. -/
def batchItemMsg (i : Int) (m : List Char) : List Char :=
  ("Batch item ").toList ++ (toString i).toList ++ (": ").toList ++ m

/-- The error messages one batch contributes, indexed from the batch's
absolute start index. -/
def batchErrs {ι ρ : Type} (proc : ι → Except (List Char) ρ) :
    List ι → Int → List (List Char)
  | [], _ => []
  | it :: t, i =>
    (match proc it with
     | .error m => [batchItemMsg i m]
     | .ok _ => []) ++ batchErrs proc t (i + 1)

/-- The loop `for (let i = 0; i < items.length; i += batchSize)` of
`batchProcess`, with explicit fuel: `none` means the fuel ran out before
the loop exited, so an unbounded-fuel `none` models divergence. -/
def batchLoop {ι ρ : Type} (proc : ι → Except (List Char) ρ) (items : List ι)
    (b : Int) :
    Nat → Int → List (Option ρ) → List (List Char) →
      Option (List (Option ρ) × List (List Char))
  | 0, _, _, _ => none
  | fuel + 1, i, accR, accE =>
    if i < (items.length : Int) then
      batchLoop proc items b fuel (i + b)
        (accR ++ (jsSlice items i (i + b)).map (fun it => okOf (proc it)))
        (accE ++ batchErrs proc (jsSlice items i (i + b)) i)
    else some (accR, accE)

/-- `batchProcess` from `parallel.ts`, run with enough fuel for any batch
size of at least one: `items.length + 1` loop-condition tests. -/
def batchProcess {ι ρ : Type} (items : List ι) (batchSize : Int)
    (proc : ι → Except (List Char) ρ) :
    Option (List (Option ρ) × List (List Char)) :=
  batchLoop proc items batchSize (items.length + 1) 0 [] []

/-- Whether a processed item failed. -/
def isErrB {ρ : Type} (r : Except (List Char) ρ) : Bool :=
  match r with
  | .ok _ => false
  | .error _ => true

/-- The processor of the spec example: item 3 fails, others map to ten
times their value. -/
def demoProc (n : Nat) : Except (List Char) Nat :=
  if n = 3 then .error (("boom").toList) else .ok (n * 10)

theorem batchErrs_append {ι ρ : Type} (proc : ι → Except (List Char) ρ) :
    ∀ (x y : List ι) (i : Int),
      batchErrs proc (x ++ y) i
        = batchErrs proc x i ++ batchErrs proc y (i + x.length) := by
  intro x
  induction x with
  | nil => intro y i; simp [batchErrs]
  | cons a t ih =>
    intro y i
    have hl : batchErrs proc ((a :: t) ++ y) i
        = (match proc a with
           | .error m => [batchItemMsg i m]
           | .ok _ => []) ++ batchErrs proc (t ++ y) (i + 1) := rfl
    have hr : batchErrs proc (a :: t) i
        = (match proc a with
           | .error m => [batchItemMsg i m]
           | .ok _ => []) ++ batchErrs proc t (i + 1) := rfl
    rw [hl, hr, ih, List.append_assoc, List.length_cons]
    rw [show i + ((t.length + 1 : Nat) : Int) = i + 1 + (t.length : Int) by push_cast; ring]

theorem batchErrs_length {ι ρ : Type} (proc : ι → Except (List Char) ρ) :
    ∀ (l : List ι) (i : Int),
      (batchErrs proc l i).length = l.countP (fun it => isErrB (proc it)) := by
  intro l
  induction l with
  | nil => intro i; simp [batchErrs]
  | cons a t ih =>
    intro i
    simp only [batchErrs, List.length_append, ih, List.countP_cons]
    cases hp : proc a <;> simp [hp, isErrB, Nat.add_comm]

theorem jsSlice_nat {α : Type} (l : List α) (k bn : Nat) (hk : k ≤ l.length) :
    jsSlice l (k : Int) ((k : Int) + (bn : Int)) = (l.drop k).take bn := by
  unfold jsSlice clampIdx
  rw [if_neg (by omega), if_neg (by omega)]
  have h1 : (k : Int).toNat = k := by omega
  have h2 : ((k : Int) + (bn : Int)).toNat = k + bn := by omega
  rw [h1, h2, Nat.min_eq_left hk]
  by_cases h : k + bn ≤ l.length
  · rw [Nat.min_eq_left h, ← List.take_drop k bn l]
  · rw [Nat.min_eq_right (by omega), List.take_length,
      List.take_of_length_le (by rw [List.length_drop]; omega)]

/-- Running the loop from index `k` with enough fuel processes exactly the
items from `k` on, in order, appending one `null`-or-value slot per item
and one tagged error per failure. -/
theorem batchLoop_run {ι ρ : Type} (proc : ι → Except (List Char) ρ)
    (items : List ι) (bn : Nat) (hb : 1 ≤ bn) :
    ∀ (fuel k : Nat) (accR : List (Option ρ)) (accE : List (List Char)),
      items.length - k + 1 ≤ fuel →
      batchLoop proc items (bn : Int) fuel (k : Int) accR accE
        = some (accR ++ (items.drop k).map (fun it => okOf (proc it)),
            accE ++ batchErrs proc (items.drop k) (k : Int)) := by
  intro fuel
  induction fuel with
  | zero => intro k accR accE hf; omega
  | succ fuel ih =>
    intro k accR accE hf
    by_cases hik : k < items.length
    · rw [batchLoop, if_pos (by exact_mod_cast hik)]
      rw [jsSlice_nat items k bn (le_of_lt hik)]
      have hcast : (k : Int) + (bn : Int) = ((k + bn : Nat) : Int) := by push_cast; ring
      rw [hcast, ih (k + bn) _ _ (by omega)]
      by_cases hkb : k + bn ≤ items.length
      · have hxlen : ((items.drop k).take bn).length = bn := by
          rw [List.length_take, List.length_drop]
          omega
        have hsplit : items.drop k = (items.drop k).take bn ++ items.drop (k + bn) := by
          conv_lhs => rw [← List.take_append_drop bn (items.drop k)]
          rw [List.drop_drop]
        have hres : accR ++ List.map (fun it => okOf (proc it)) ((items.drop k).take bn)
            ++ List.map (fun it => okOf (proc it)) (items.drop (k + bn))
            = accR ++ List.map (fun it => okOf (proc it)) (items.drop k) := by
          rw [List.append_assoc]
          congr 1
          conv_rhs => rw [hsplit]
          rw [List.map_append]
        have herr : accE ++ batchErrs proc ((items.drop k).take bn) (k : Int)
            ++ batchErrs proc (items.drop (k + bn)) ((k + bn : Nat) : Int)
            = accE ++ batchErrs proc (items.drop k) (k : Int) := by
          rw [List.append_assoc]
          congr 1
          conv_rhs => rw [hsplit]
          rw [batchErrs_append, hxlen]
          congr 2
        rw [hres, herr]
      · have hdrop : items.drop (k + bn) = [] := List.drop_eq_nil_of_le (by omega)
        have htake : (items.drop k).take bn = items.drop k :=
          List.take_of_length_le (by rw [List.length_drop]; omega)
        rw [hdrop, htake]
        simp [batchErrs]
    · rw [batchLoop, if_neg (by exact_mod_cast hik)]
      have hdrop : items.drop k = [] := List.drop_eq_nil_of_le (by omega)
      rw [hdrop]
      simp [batchErrs]

/-- With a nonpositive batch size and a nonempty item list the loop index
never reaches the list length, so no amount of fuel makes the loop exit. -/
theorem batchLoop_diverges {ι ρ : Type} (proc : ι → Except (List Char) ρ)
    (items : List ι) (b : Int) (hb : b ≤ 0) (hne : items ≠ []) :
    ∀ (fuel : Nat) (i : Int), i ≤ 0 →
      ∀ (accR : List (Option ρ)) (accE : List (List Char)),
        batchLoop proc items b fuel i accR accE = none := by
  have hlen : 1 ≤ items.length := List.length_pos.2 hne
  intro fuel
  induction fuel with
  | zero => intro i hi accR accE; rfl
  | succ fuel ih =>
    intro i hi accR accE
    rw [batchLoop, if_pos (by exact_mod_cast lt_of_le_of_lt hi (by exact_mod_cast hlen))]
    exact ih (i + b) (by omega) _ _

/-- C7: for a batch size of at least one, `batchProcess` returns one slot
per input item in exact input index order — the item's value where the
processor succeeded and `null` where it failed — and one error message per
failed item; on the spec's example `[1,2,3,4,5]` with batch size 2 and
item 3 failing it returns `[f 1, f 2, null, f 4, f 5]` plus the error for
batch item 2. -/
theorem batchProcess_order {ι ρ : Type} (items : List ι) (bn : Nat)
    (proc : ι → Except (List Char) ρ) (hb : 1 ≤ bn) :
    batchProcess items (bn : Int) proc
        = some (items.map (fun it => okOf (proc it)), batchErrs proc items 0) ∧
      (batchErrs proc items 0).length
        = items.countP (fun it => isErrB (proc it)) ∧
      batchProcess [1, 2, 3, 4, 5] (2 : Int) demoProc
        = some ([some 10, some 20, none, some 40, some 50],
            [("Batch item 2: boom").toList]) := by
  refine ⟨?_, batchErrs_length proc items 0, by decide⟩
  have h := batchLoop_run proc items bn hb (items.length + 1) 0 [] [] (by omega)
  unfold batchProcess
  rw [show ((0 : Nat) : Int) = (0 : Int) from rfl] at h
  rw [h]
  simp

/-- Witness for `batchProcess_order` on the spec example. -/
theorem batchProcess_order_witness :
    batchProcess [1, 2, 3, 4, 5] (2 : Int) demoProc
      = some ([1, 2, 3, 4, 5].map (fun it => okOf (demoProc it)),
          batchErrs demoProc [1, 2, 3, 4, 5] 0) :=
  (batchProcess_order [1, 2, 3, 4, 5] 2 demoProc (by decide)).1

/-- C10: `batchProcess` terminates for every batch size of at least one
(a fixed fuel of `items.length + 1` loop tests suffices and the result is
fuel-independent), but with batch size zero or negative and a nonempty
item list the loop never terminates: no fuel is enough.  The spec states
no precondition on the batch size. -/
theorem batchProcess_termination {ι ρ : Type} (items : List ι)
    (proc : ι → Except (List Char) ρ) :
    (∀ bn : Nat, 1 ≤ bn → ∃ r, ∀ fuel : Nat, items.length + 1 ≤ fuel →
        batchLoop proc items (bn : Int) fuel 0 [] [] = some r) ∧
      (∀ b : Int, b ≤ 0 → items ≠ [] → ∀ fuel : Nat,
        batchLoop proc items b fuel 0 [] [] = none) := by
  constructor
  · intro bn hb
    refine ⟨(items.map (fun it => okOf (proc it)), batchErrs proc items 0), ?_⟩
    intro fuel hf
    have h := batchLoop_run proc items bn hb fuel 0 [] [] (by omega)
    rw [show ((0 : Nat) : Int) = (0 : Int) from rfl] at h
    rw [h]
    simp
  · intro b hb hne fuel
    exact batchLoop_diverges proc items b hb hne fuel 0 le_rfl [] []

/-- Witness for `batchProcess_termination`: a singleton list terminates at
batch size one and diverges at batch size zero. -/
theorem batchProcess_termination_witness :
    (∃ r, ∀ fuel : Nat, [3].length + 1 ≤ fuel →
        batchLoop demoProc [3] ((1 : Nat) : Int) fuel 0 [] [] = some r) ∧
      batchLoop demoProc [3] (0 : Int) 5 0 [] [] = none :=
  ⟨(batchProcess_termination [3] demoProc).1 1 (by decide),
    (batchProcess_termination [3] demoProc).2 0 (by decide) (by decide) 5⟩

/-! ### `formatters.ts` -/

/-- `Array.prototype.join("\n")`. -/
def joinNl : List (List Char) → List Char
  | [] => []
  | [x] => x
  | x :: xs => x ++ '\n' :: joinNl xs

/-- The provider tag as rendered in output. -/
def sourceName : Source → List Char
  | .exa => ("exa").toList
  | .firecrawl => ("firecrawl").toList
  | .perplexity => ("perplexity").toList

/-- `countSources`: the number of distinct provider tags contributing. -/
def countSources (results : List MergedResult) : Nat :=
  ((results.map (fun r => r.sources)).flatten.dedup).length

/-- The options record of `formatSearchResults`. -/
structure FmtOptions where
  showContent : Option Bool
  maxResults : Option Nat

/-- The backtick-quoted, space-joined provider badges of one entry. -/
def sourcesBadge (sources : List Source) : List Char :=
  List.intercalate ((" ").toList)
    (sources.map (fun s => ("`").toList ++ sourceName s ++ ("`").toList))

/-- The lines pushed for one search result entry. -/
def resultEntry (showContent : Bool) (i : Nat) (r : MergedResult) :
    List (List Char) :=
  [("### ").toList ++ (Nat.repr (i + 1)).toList ++ (". [").toList ++ r.title
      ++ ("](" ).toList ++ r.url ++ (")").toList,
    ("Sources: ").toList ++ sourcesBadge r.sources
      ++ (if truthyStr r.publishedDate
          then (" | ").toList ++ (r.publishedDate.getD []).take 10 else [])
      ++ ("\n").toList]
  ++ (if r.snippet.isEmpty then []
      else [("> ").toList ++ r.snippet.take 500 ++ ("\n").toList])
  ++ (if showContent && truthyStr r.content
      then [("<details><summary>Full content</summary>\n\n").toList
          ++ (r.content.getD []).take 5000 ++ ("\n\n</details>\n").toList]
      else [])

/-- `formatSearchResults` from `formatters.ts`. -/
def formatSearchResults (results : List MergedResult)
    (options : Option FmtOptions) : List Char :=
  let maxr := (options.bind (fun o => o.maxResults)).getD results.length
  let items := results.take maxr
  if items.isEmpty then ("No results found.").toList
  else
    joinNl ((("## Search Results (").toList ++ (Nat.repr items.length).toList
        ++ (" unique from ").toList ++ (Nat.repr (countSources items)).toList
        ++ (" services)\n").toList)
      :: items.enum.flatMap (fun p =>
          resultEntry ((options.bind (fun o => o.showContent)).getD false) p.1 p.2))

/-- `formatSummary` from `formatters.ts`; a source is a `(url, title)`
pair. -/
def formatSummary (summary : List Char)
    (sources : List (List Char × List Char)) : List Char :=
  joinNl ([("## Research Summary\n").toList,
      summary,
      ("\n---\n## Sources (").toList ++ (Nat.repr sources.length).toList
        ++ (")\n").toList]
    ++ sources.enum.map (fun p =>
        (Nat.repr (p.1 + 1)).toList ++ (". [").toList
          ++ (if p.2.2.isEmpty then p.2.1 else p.2.2)
          ++ ("](" ).toList ++ p.2.1 ++ (")").toList))

/-- `formatComparison` from `formatters.ts`; an item is a flat record,
modelled as an association list from key to rendered string value. -/
def formatComparison (items : List (List (List Char × List Char)))
    (criteria : List (List Char)) : List Char :=
  if items.isEmpty then ("No items to compare.").toList
  else
    let cols := if criteria.length > 0 then criteria
      else ((items.headD []).map (fun p => p.1)).filter
          (fun k => !(k == ("url").toList) && !(k == ("source").toList))
    joinNl ([("## Comparison (").toList ++ (Nat.repr items.length).toList
          ++ (" offers)\n").toList,
        ("| # | ").toList ++ List.intercalate ((" | ").toList) cols
          ++ (" | Source |").toList,
        ("|---|").toList
          ++ List.intercalate (("|").toList) (cols.map (fun _ => ("---").toList))
          ++ ("|---|").toList]
      ++ items.enum.map (fun p =>
          ("| ").toList ++ (Nat.repr (p.1 + 1)).toList ++ (" | ").toList
            ++ List.intercalate ((" | ").toList)
              (cols.map (fun c => ((p.2.lookup c).getD (("-").toList)).take 100))
            ++ (" | ").toList
            ++ (if ((p.2.lookup (("url").toList)).getD []).isEmpty
                then ("-").toList
                else ("[link](").toList ++ ((p.2.lookup (("url").toList)).getD [])
                  ++ (")").toList)
            ++ (" |").toList))

/-- `formatErrors` from `formatters.ts`: empty string for no errors, else
a separated warning block listing every error. -/
def formatErrors (errors : List (List Char)) : List Char :=
  if errors.isEmpty then []
  else
    joinNl ([("\n---").toList,
        ("**WARNING: ").toList ++ (Nat.repr errors.length).toList
          ++ (" service(s) failed:**\n").toList]
      ++ errors.map (fun e => ("- ").toList ++ e)
      ++ [[]])

/-- The per-provider success flags of `formatServiceStatus`. -/
structure ServiceStatus where
  exa : Bool
  firecrawl : Bool
  perplexity : Bool

/-- The OK/FAILED mark. -/
def markOk (ok : Bool) : List Char :=
  if ok then ("OK").toList else ("FAILED").toList

/-- `formatServiceStatus` from `formatters.ts`. -/
def formatServiceStatus (services : ServiceStatus) : List Char :=
  ("**Services:** Exa: ").toList ++ markOk services.exa
    ++ (" | Firecrawl: ").toList ++ markOk services.firecrawl
    ++ (" | Perplexity: ").toList ++ markOk services.perplexity
    ++ ("\n").toList

theorem joinNl_head_ne_nil {x : List Char} (hx : x ≠ []) (xs : List (List Char)) :
    joinNl (x :: xs) ≠ [] := by
  cases xs with
  | nil => exact hx
  | cons y ys =>
    have : joinNl (x :: y :: ys) = x ++ '\n' :: joinNl (y :: ys) := rfl
    rw [this]
    simp

theorem append_ne_nil_left {a b : List Char} (ha : a ≠ []) : a ++ b ≠ [] := by
  simp [ha]

/-- C8 (counterexample): `formatErrors` applied to an empty error list
returns the empty string, not an explicit non-empty message. -/
theorem formatErrors_empty_is_empty : formatErrors [] = ([] : List Char) := rfl

/-- C8 (amended): every formatter is total, `formatSearchResults` and
`formatComparison` return their literal empty-input messages, and every
formatter returns non-empty text on every input — except `formatErrors`,
which by design returns the empty string when there are no errors and a
non-empty warning block otherwise. -/
theorem formatters_total :
    (∀ opts, formatSearchResults [] opts = ("No results found.").toList) ∧
      (∀ cs, formatComparison [] cs = ("No items to compare.").toList) ∧
      formatErrors [] = [] ∧
      (∀ es, es ≠ [] → formatErrors es ≠ []) ∧
      (∀ rs opts, formatSearchResults rs opts ≠ []) ∧
      (∀ st srcs, formatSummary st srcs ≠ []) ∧
      (∀ items cs, items ≠ [] → formatComparison items cs ≠ []) ∧
      (∀ svc, formatServiceStatus svc ≠ []) := by
  refine ⟨?_, ?_, rfl, ?_, ?_, ?_, ?_, ?_⟩
  · intro opts
    simp [formatSearchResults]
  · intro cs
    simp [formatComparison]
  · intro es hes
    unfold formatErrors
    rw [if_neg (by simpa using hes)]
    exact joinNl_head_ne_nil (by decide) _
  · intro rs opts
    unfold formatSearchResults
    dsimp only
    by_cases he : (rs.take ((opts.bind (fun o => o.maxResults)).getD rs.length)).isEmpty
    · rw [if_pos he]
      decide
    · rw [if_neg he]
      refine joinNl_head_ne_nil ?_ _
      repeat apply append_ne_nil_left
      decide
  · intro st srcs
    unfold formatSummary
    exact joinNl_head_ne_nil (by decide) _
  · intro items cs hne
    unfold formatComparison
    rw [if_neg (by simpa using hne)]
    refine joinNl_head_ne_nil ?_ _
    repeat apply append_ne_nil_left
    decide
  · intro svc
    unfold formatServiceStatus
    repeat apply append_ne_nil_left
    decide

/-- Witness for `formatters_total` at concrete inputs. -/
theorem formatters_total_witness :
    formatErrors [("[Exa] boom").toList] ≠ [] ∧
      formatComparison [[(("price").toList, ("9").toList)]] [] ≠ [] :=
  ⟨formatters_total.2.2.2.1 [("[Exa] boom").toList] (by decide),
    formatters_total.2.2.2.2.2.2.1 [[(("price").toList, ("9").toList)]] [] (by decide)⟩

/-! ### `mass-summary.ts`: step 2 iterates over the `batchProcess` record -/

/-- The value `batchProcess` resolves to: the plain object
`{ results, errors }` (`parallel.ts`).  A plain object has no
`Symbol.iterator`. -/
structure BatchReturn (ρ : Type) where
  results : List (Option ρ)
  errors : List (List Char)

/-- The iterator a `for..of` loop requests from its right-hand side:
`some` elements when the value is iterable, `none` when it is not.  A
`BatchReturn` record is a plain object, so the lookup finds nothing. -/
def batchReturnIterator {ρ : Type} (σ : Type) (_r : BatchReturn ρ) :
    Option (List σ) :=
  none

/-- `for..of` over a value: with an iterator it yields the elements; with
none it throws `TypeError: <expr> is not iterable` before any body runs. -/
def forOfElems {σ : Type} (iterator : Option (List σ)) :
    Except (List Char) (List σ) :=
  match iterator with
  | some elems => .ok elems
  | none => .error (("TypeError: exaContents is not iterable").toList)

/-- Step 2 of `createMassSummary` (`mass-summary.ts`): the
`await batchProcess(contentBatches, 3, ...)` call followed by
`for (const batchResult of exaContents)` over its resolved value.  The
elements the loop would need are batch results (`σ`); the loop asks the
`{ results, errors }` record for an iterator. -/
def massSummaryStep2 {ι ρ : Type} (σ : Type) (contentBatches : List ι)
    (proc : ι → Except (List Char) ρ) : Except (List Char) (List σ) :=
  match batchProcess contentBatches 3 proc with
  | some pr => forOfElems (batchReturnIterator σ ⟨pr.1, pr.2⟩)
  | none => .ok []

/-- C9: the claimed behaviour is unreachable.  `batchProcess` resolves to
the record `{ results, errors }`, and `mass-summary.ts` then runs
`for (const batchResult of exaContents)` over that record; a plain object
is not iterable, so every invocation throws a `TypeError` at that loop —
before the synthesis `try/catch` whose fallback the claim describes — and
the tool never returns normally.  (The loop body reads
`batchResult.results`, so the code was written against a `batchProcess`
that returned an array of per-batch records.) -/
theorem massSummary_step2_throws {ι ρ : Type} (σ : Type)
    (contentBatches : List ι) (proc : ι → Except (List Char) ρ) :
    massSummaryStep2 σ contentBatches proc
      = .error (("TypeError: exaContents is not iterable").toList) := by
  have h := batchLoop_run proc contentBatches 3 (by omega)
    (contentBatches.length + 1) 0 [] [] (by omega)
  rw [show ((3 : Nat) : Int) = (3 : Int) from rfl,
    show ((0 : Nat) : Int) = (0 : Int) from rfl] at h
  unfold massSummaryStep2 batchProcess
  rw [h]
  rfl

end DeepResearch
